import Mathlib

/-!
Shallow embedding of `polymarket_copy_bot.py` (a single-run copy-trading
bot) and verification of its specification.

Modelling conventions:
* Python strings are Lean `String`s; where character-level reasoning is
  needed we work on `String.data : List Char`.
* Python ints are `Int` (outcome indices come from JSON and are compared
  exactly); money amounts (`BET_AMOUNT`, floats in the source) are modelled
  as `Rat` — they are only passed through, never computed with.
* Activity records model the fields the bot reads.  `title` is `Option
  String` because the source reads it with `activity.get("title", "")`,
  i.e. a missing title is replaced by the empty string; the other fields
  are the ones every well-formed feed entry carries per the data model.
* Each HTTP read is modelled as an `Except Unit _` value in a `World`
  record: `.error ()` stands for a non-2xx response, on which
  `raise_for_status` aborts the run (the exception propagates to the
  top-level handler).  `main` becomes the pure function `runMain` from a
  configuration and a world to a run result recording the final status,
  the decision reached (if any) and the orders submitted.
-/

namespace CopyBot

/-- An entry of the activity feed (`/activity`), with the fields the bot
reads: `type`, `side`, `title` (read via `.get("title", "")`, hence
optional), `conditionId`, `outcomeIndex`, `outcome`, `size`, `price`,
`asset`. -/
structure Activity where
  type : String
  side : String
  title : Option String
  conditionId : String
  outcomeIndex : Int
  outcome : String
  size : Rat
  price : Rat
  asset : String
deriving DecidableEq, Repr

/-- An operator holding from `/positions`: the bot reads `conditionId`,
`outcomeIndex`, `title`, `outcome`. -/
structure Position where
  conditionId : String
  outcomeIndex : Int
  title : String
  outcome : String
  size : Rat
deriving DecidableEq, Repr

/-- Python `title.startswith(pre)`: `pre` is a leading substring of
`title`, character by character. -/
def pyStartswith : List Char → List Char → Bool
  | _, [] => true
  | [], _ :: _ => false
  | c :: cs, p :: ps => c = p && pyStartswith cs ps

/-- Fuel-driven decimal printer; `fuel ≥ n` always suffices, since the
value shrinks by a factor of ten per step. -/
def natDigitsAux : Nat → Nat → List Char
  | 0, n => [Char.ofNat (48 + n % 10)]
  | fuel + 1, n =>
    if n < 10 then [Char.ofNat (48 + n)]
    else natDigitsAux fuel (n / 10) ++ [Char.ofNat (48 + n % 10)]

/-- Decimal digit characters of a natural number, most significant first:
the Python `str()` of a non-negative int. -/
def natDigits (n : Nat) : List Char := natDigitsAux n n

/-- Python `str()` of an int: a minus sign followed by the digits when
negative, just the digits otherwise. -/
def intStr (i : Int) : List Char :=
  if i < 0 then '-' :: natDigits (-i).toNat else natDigits i.toNat

/-- The numeric value a digit string denotes; left inverse of `natDigits`,
used to show the printer is injective. -/
def digitsVal (l : List Char) : Nat :=
  l.foldl (fun a c => 10 * a + (c.toNat - 48)) 0

/-- The key string built by `already_has_position`'s
`key = lambda c, o: f"{c}_{o}"`, as a character list. -/
def pyKey (c : String) (o : Int) : List Char :=
  c.data ++ '_' :: intStr o

/-- `already_has_position(my_positions, conditionId, outcomeIndex)`:
builds the set of key strings of the holdings and tests membership of the
queried key.  Set membership over a list of keys is `List.any` over the
underlying list. -/
def already_has_position (my_positions : List Position) (conditionId : String)
    (outcomeIndex : Int) : Bool :=
  my_positions.any fun p =>
    pyKey p.conditionId p.outcomeIndex = pyKey conditionId outcomeIndex

/-- Module-level configuration constants of the script, gathered into a
record (values come from the environment at startup). -/
structure Config where
  privateKey : String
  betAmount : Rat
  dryRun : Bool
  filterBitcoinUpDown : Bool
  /-- `BITCOIN_UP_DOWN_PREFIX`, the required leading title substring. -/
  titleStart : String
  showTargetPositionBets : Bool
deriving DecidableEq, Repr

/-- The loop body of `get_latest_bet`: skip entries that are not BUY
trades; with the title filter on, skip entries whose title (defaulting to
`""`) does not start with the configured string; return the first
survivor. -/
def get_latest_bet (cfg : Config) : List Activity → Option Activity
  | [] => none
  | a :: rest =>
    if a.type == "TRADE" && a.side == "BUY" then
      if cfg.filterBitcoinUpDown &&
          !pyStartswith (a.title.getD "").data cfg.titleStart.data then
        get_latest_bet cfg rest
      else some a
    else get_latest_bet cfg rest

/-- The qualification predicate of `get_latest_bet`, factored out: BUY
trade passing the (possibly disabled) title filter. -/
def qualifies (cfg : Config) (a : Activity) : Bool :=
  a.type == "TRADE" && a.side == "BUY" &&
    (!cfg.filterBitcoinUpDown ||
      pyStartswith (a.title.getD "").data cfg.titleStart.data)

/-- The accumulator loop of `get_target_bets_for_position`: append each
trade entry matching the condition id and outcome index. -/
def gtbLoop (cid : String) (oi : Int) :
    List Activity → List Activity → List Activity
  | acc, [] => acc
  | acc, a :: rest =>
    if a.type == "TRADE" && a.conditionId == cid && a.outcomeIndex == oi then
      gtbLoop cid oi (acc ++ [a]) rest
    else gtbLoop cid oi acc rest

/-- `get_target_bets_for_position`: collect, in feed order, the trade
entries of the (already window-limited) feed for one position. -/
def get_target_bets_for_position (feed : List Activity) (cid : String)
    (oi : Int) : List Activity :=
  gtbLoop cid oi [] feed

/-- The spec's `Decision`: skip because nothing qualifies, skip because
the position is already held, or place an order. -/
inductive Decision where
  | NoQualifyingActivity : Decision
  | AlreadyHeld (conditionId : String) (outcomeIndex : Int) : Decision
  | PlaceOrder (assetId : String) (side : String) (amount : Rat) : Decision
deriving DecidableEq, Repr

/-- The decision logic inlined in `main` (lines 174, 213–225), as the
spec's `decide`: no latest trade means nothing to copy; a held position
means skip; otherwise buy `BET_AMOUNT` of the latest trade's asset. -/
def decide (cfg : Config) (latest : Option Activity)
    (holdings : List Position) : Decision :=
  match latest with
  | none => .NoQualifyingActivity
  | some t =>
    if already_has_position holdings t.conditionId t.outcomeIndex then
      .AlreadyHeld t.conditionId t.outcomeIndex
    else
      .PlaceOrder t.asset "BUY" cfg.betAmount

/-- An order submitted through `place_bet`: market order for `token_id`,
side `BUY`, fill-or-kill, spending `amount`. -/
structure Order where
  tokenId : String
  side : String
  amount : Rat
deriving DecidableEq, Repr

/-- Pre-determined responses of the four upstream reads a run may
perform; `.error ()` is a non-2xx response (`raise_for_status` raises). -/
structure World where
  /-- `get_profile_name(TARGET_ADDRESS)` (gamma profile lookup). -/
  profileResp : Except Unit String
  /-- `/activity` with limit 20, read by `get_latest_bet`. -/
  activityResp : Except Unit (List Activity)
  /-- `/activity` with limit 100, read by `get_target_bets_for_position`. -/
  historyResp : Except Unit (List Activity)
  /-- `/positions` for the funder, read by `get_positions`. -/
  positionsResp : Except Unit (List Position)
deriving Repr

/-- How a run ended: aborted on the missing-key check, aborted by an HTTP
error from an upstream read, or ran to completion. -/
inductive RunStatus where
  | fatalMissingKey : RunStatus
  | httpError : RunStatus
  | completed : RunStatus
deriving DecidableEq, Repr

/-- Observable outcome of one `main()` run. -/
structure RunResult where
  status : RunStatus
  /-- The decision the run reached, `none` when it aborted first. -/
  decision : Option Decision
  /-- Orders actually posted (`place_bet` calls). -/
  orders : List Order
deriving DecidableEq, Repr

/-- `main()`: abort on empty `PRIVATE_KEY`; fetch the profile name; fetch
the activity feed and extract the latest qualifying bet (none ⇒ done);
when `SHOW_TARGET_POSITION_BETS`, fetch the position history (display
only); fetch the holdings; skip when the position is already held;
otherwise place the bet unless `DRY_RUN`.  Any failed read aborts
immediately.  (`get_clob_client` is an external collaborator and is
modelled as infallible.) -/
def runMain (cfg : Config) (w : World) : RunResult :=
  if cfg.privateKey = "" then ⟨.fatalMissingKey, none, []⟩
  else
    match w.profileResp with
    | .error _ => ⟨.httpError, none, []⟩
    | .ok _ =>
      match w.activityResp with
      | .error _ => ⟨.httpError, none, []⟩
      | .ok feed =>
        match get_latest_bet cfg feed with
        | none => ⟨.completed, some .NoQualifyingActivity, []⟩
        | some latest =>
          match (if cfg.showTargetPositionBets then w.historyResp
                 else .ok []) with
          | .error _ => ⟨.httpError, none, []⟩
          | .ok _ =>
            match w.positionsResp with
            | .error _ => ⟨.httpError, none, []⟩
            | .ok ps =>
              match decide cfg (some latest) ps with
              | .PlaceOrder a s m =>
                ⟨.completed, some (.PlaceOrder a s m),
                  if cfg.dryRun then [] else [⟨a, s, m⟩]⟩
              | d => ⟨.completed, some d, []⟩

/-! ### Concrete sample inputs, used to exercise the definitions -/

/-- A configuration with the script's literal defaults (dry run on, title
filter on) and a signing key set. -/
def sampleCfg : Config :=
  { privateKey := "0xabc"
    betAmount := 1
    dryRun := true
    filterBitcoinUpDown := true
    titleStart := "Bitcoin Up or Down"
    showTargetPositionBets := true }

/-- A qualifying BUY trade on a Bitcoin Up-or-Down market. -/
def sampleTrade : Activity :=
  { type := "TRADE"
    side := "BUY"
    title := some "Bitcoin Up or Down - Nov 3"
    conditionId := "0xc1"
    outcomeIndex := 0
    outcome := "Up"
    size := 20
    price := 1
    asset := "7157" }

/-- A SELL trade: never qualifies for copying. -/
def sampleSell : Activity := { sampleTrade with side := "SELL" }

/-- A non-trade feed entry (a redemption). -/
def sampleRedeem : Activity := { sampleTrade with type := "REDEEM" }

/-- A BUY trade on another market, filtered out by its title. -/
def sampleOther : Activity :=
  { sampleTrade with
      title := some "Election Winner 2024"
      conditionId := "0xe1"
      asset := "9001" }

/-- An operator position holding the same (market, outcome) key as
`sampleTrade`. -/
def samplePos : Position :=
  { conditionId := "0xc1"
    outcomeIndex := 0
    title := "Bitcoin Up or Down - Nov 3"
    outcome := "Up"
    size := 2 }

/-- A world whose reads all succeed and whose feed holds a non-trade
entry, a SELL and one qualifying BUY, with empty operator holdings. -/
def sampleWorld : World :=
  { profileResp := .ok "target"
    activityResp := .ok [sampleRedeem, sampleOther, sampleTrade]
    historyResp := .ok [sampleTrade]
    positionsResp := .ok [] }

/-- `sampleWorld` with the operator already holding `sampleTrade`'s key. -/
def sampleWorldHeld : World :=
  { sampleWorld with positionsResp := .ok [samplePos] }

/-- `sampleWorld` with a failing holdings read. -/
def sampleWorldFetchFail : World :=
  { sampleWorld with positionsResp := .error () }

/-- A dry-run configuration with no signing key configured. -/
def dryRunNoKeyCfg : Config :=
  { sampleCfg with privateKey := "", dryRun := true }

/-! ### Properties of the decimal printer and the position-key string -/

theorem natDigitsAux_fuel_irrel :
    ∀ f₁ f₂ n : Nat, n ≤ f₁ → n ≤ f₂ → natDigitsAux f₁ n = natDigitsAux f₂ n := by
  intro f₁
  induction f₁ with
  | zero =>
    intro f₂ n h₁ h₂
    have hn : n = 0 := by omega
    subst hn
    cases f₂ <;> simp [natDigitsAux]
  | succ k ih =>
    intro f₂ n h₁ h₂
    cases f₂ with
    | zero =>
      have hn : n = 0 := by omega
      subst hn
      simp [natDigitsAux]
    | succ m =>
      by_cases h : n < 10
      · simp [natDigitsAux, h]
      · have hd : n / 10 ≤ k := by omega
        have hd2 : n / 10 ≤ m := by omega
        simp only [natDigitsAux, if_neg h]
        rw [ih m (n / 10) hd hd2]

theorem natDigits_lt10 {n : Nat} (h : n < 10) :
    natDigits n = [Char.ofNat (48 + n)] := by
  cases n with
  | zero => simp [natDigits, natDigitsAux]
  | succ k => simp [natDigits, natDigitsAux, h]

theorem natDigits_ge10 {n : Nat} (h : 10 ≤ n) :
    natDigits n = natDigits (n / 10) ++ [Char.ofNat (48 + n % 10)] := by
  obtain ⟨k, rfl⟩ : ∃ k, n = k + 1 := ⟨n - 1, by omega⟩
  show natDigitsAux (k + 1) (k + 1) = _
  have hnot : ¬ k + 1 < 10 := by omega
  simp only [natDigitsAux, if_neg hnot]
  rw [natDigitsAux_fuel_irrel k ((k + 1) / 10) ((k + 1) / 10) (by omega) le_rfl]
  rfl

theorem toNat_ofNat_digit {k : Nat} (h : k < 10) :
    (Char.ofNat (48 + k)).toNat = 48 + k := by
  interval_cases k <;> decide

theorem natDigits_bound :
    ∀ (n : Nat), ∀ c ∈ natDigits n, 48 ≤ c.toNat ∧ c.toNat ≤ 57 := by
  intro n
  induction n using Nat.strong_induction_on with
  | _ n ih =>
    intro c hc
    by_cases h : n < 10
    · rw [natDigits_lt10 h] at hc
      simp at hc
      subst hc
      rw [toNat_ofNat_digit h]
      omega
    · rw [natDigits_ge10 (by omega)] at hc
      rcases List.mem_append.mp hc with h1 | h2
      · exact ih (n / 10) (Nat.div_lt_self (by omega) (by omega)) c h1
      · simp at h2
        subst h2
        rw [toNat_ofNat_digit (Nat.mod_lt n (by omega))]
        omega

theorem digitsVal_append_single (l : List Char) (c : Char) :
    digitsVal (l ++ [c]) = 10 * digitsVal l + (c.toNat - 48) := by
  simp [digitsVal, List.foldl_append]

theorem digitsVal_natDigits : ∀ n : Nat, digitsVal (natDigits n) = n := by
  intro n
  induction n using Nat.strong_induction_on with
  | _ n ih =>
    by_cases h : n < 10
    · rw [natDigits_lt10 h]
      simp [digitsVal, toNat_ofNat_digit h]
    · rw [natDigits_ge10 (by omega), digitsVal_append_single,
        ih (n / 10) (Nat.div_lt_self (by omega) (by omega)),
        toNat_ofNat_digit (Nat.mod_lt n (by omega))]
      omega

theorem natDigits_inj {m n : Nat} (h : natDigits m = natDigits n) : m = n := by
  rw [← digitsVal_natDigits m, h, digitsVal_natDigits]

theorem intStr_bound :
    ∀ (i : Int), ∀ c ∈ intStr i, c.toNat = 45 ∨ (48 ≤ c.toNat ∧ c.toNat ≤ 57) := by
  intro i c hc
  unfold intStr at hc
  split at hc
  · rcases List.mem_cons.mp hc with h1 | h2
    · subst h1
      left
      decide
    · exact Or.inr (natDigits_bound _ c h2)
  · exact Or.inr (natDigits_bound _ c hc)

theorem intStr_no_underscore (i : Int) : '_' ∉ intStr i := by
  intro hmem
  have h := intStr_bound i '_' hmem
  have : ('_').toNat = 95 := by decide
  omega

theorem intStr_inj {i j : Int} (h : intStr i = intStr j) : i = j := by
  unfold intStr at h
  split at h <;> split at h
  · rcases List.cons.injEq .. ▸ h with ⟨-, hd⟩
    have := natDigits_inj hd
    omega
  · exfalso
    have hmem : '-' ∈ natDigits j.toNat := h ▸ List.mem_cons_self _ _
    have := natDigits_bound _ '-' hmem
    have : ('-').toNat = 45 := by decide
    omega
  · exfalso
    have hmem : '-' ∈ natDigits i.toNat := h ▸ List.mem_cons_self _ _
    have := natDigits_bound _ '-' hmem
    have : ('-').toNat = 45 := by decide
    omega
  · have := natDigits_inj h
    omega

theorem append_underscore_inj :
    ∀ (a₁ a₂ b₁ b₂ : List Char), '_' ∉ a₁ → '_' ∉ a₂ →
      a₁ ++ '_' :: b₁ = a₂ ++ '_' :: b₂ → a₁ = a₂ ∧ b₁ = b₂ := by
  intro a₁
  induction a₁ with
  | nil =>
    intro a₂ b₁ b₂ _ h₂ heq
    cases a₂ with
    | nil =>
      simp at heq
      exact ⟨rfl, heq⟩
    | cons y ys =>
      exfalso
      simp at heq
      exact h₂ (heq.1 ▸ List.mem_cons_self _ _)
  | cons x xs ih =>
    intro a₂ b₁ b₂ h₁ h₂ heq
    cases a₂ with
    | nil =>
      exfalso
      simp at heq
      exact h₁ (heq.1 ▸ List.mem_cons_self _ _)
    | cons y ys =>
      simp at heq
      obtain ⟨hxy, htail⟩ := heq
      have hx : '_' ∉ xs := fun hm => h₁ (List.mem_cons_of_mem _ hm)
      have hy : '_' ∉ ys := fun hm => h₂ (List.mem_cons_of_mem _ hm)
      obtain ⟨he, hb⟩ := ih ys b₁ b₂ hx hy htail
      exact ⟨by rw [hxy, he], hb⟩

theorem pyKey_inj {c₁ c₂ : String} {o₁ o₂ : Int}
    (h : pyKey c₁ o₁ = pyKey c₂ o₂) : c₁ = c₂ ∧ o₁ = o₂ := by
  unfold pyKey at h
  have hrev := congrArg List.reverse h
  simp only [List.reverse_append, List.reverse_cons, List.append_assoc,
    List.singleton_append] at hrev
  have hnu₁ : '_' ∉ (intStr o₁).reverse := fun hm =>
    intStr_no_underscore o₁ (List.mem_reverse.mp hm)
  have hnu₂ : '_' ∉ (intStr o₂).reverse := fun hm =>
    intStr_no_underscore o₂ (List.mem_reverse.mp hm)
  obtain ⟨ha, hb⟩ :=
    append_underscore_inj _ _ _ _ hnu₁ hnu₂ hrev
  have ho : o₁ = o₂ := intStr_inj (List.reverse_injective ha)
  have hc : c₁.data = c₂.data := List.reverse_injective hb
  exact ⟨String.ext hc, ho⟩

/-! ### The feed scan of `get_latest_bet` is a first-match search -/

theorem get_latest_bet_eq_find (cfg : Config) :
    ∀ feed : List Activity, get_latest_bet cfg feed = feed.find? (qualifies cfg) := by
  intro feed
  induction feed with
  | nil => rfl
  | cons a rest ih =>
    have hq : qualifies cfg a =
        ((a.type == "TRADE" && a.side == "BUY") &&
          !(cfg.filterBitcoinUpDown &&
            !pyStartswith (a.title.getD "").data cfg.titleStart.data)) := by
      unfold qualifies
      cases cfg.filterBitcoinUpDown <;>
        cases pyStartswith (a.title.getD "").data cfg.titleStart.data <;> simp
    rw [get_latest_bet, List.find?_cons, hq]
    by_cases h1 : (a.type == "TRADE" && a.side == "BUY") = true <;>
      by_cases h2 : (cfg.filterBitcoinUpDown &&
          !pyStartswith (a.title.getD "").data cfg.titleStart.data) = true <;>
        simp [h1, h2, ih]

/-! ### The history loop of `get_target_bets_for_position` is a filter -/

theorem gtbLoop_eq_filter (cid : String) (oi : Int) :
    ∀ (feed acc : List Activity),
      gtbLoop cid oi acc feed =
        acc ++ feed.filter (fun a =>
          a.type == "TRADE" && a.conditionId == cid && a.outcomeIndex == oi) := by
  intro feed
  induction feed with
  | nil => intro acc; simp [gtbLoop]
  | cons a rest ih =>
    intro acc
    by_cases h : (a.type == "TRADE" && a.conditionId == cid &&
        a.outcomeIndex == oi) = true
    · rw [gtbLoop, if_pos h, ih]
      simp [List.filter_cons, h, List.append_assoc]
    · rw [gtbLoop, if_neg h, ih]
      simp [List.filter_cons, h]

theorem get_target_bets_eq_filter (feed : List Activity) (cid : String) (oi : Int) :
    get_target_bets_for_position feed cid oi =
      feed.filter (fun a =>
        a.type == "TRADE" && a.conditionId == cid && a.outcomeIndex == oi) := by
  rw [get_target_bets_for_position, gtbLoop_eq_filter]
  rfl

theorem already_has_position_iff (ps : List Position) (c : String) (o : Int) :
    already_has_position ps c o = true ↔
      ∃ p ∈ ps, p.conditionId = c ∧ p.outcomeIndex = o := by
  unfold already_has_position
  rw [List.any_eq_true]
  constructor
  · rintro ⟨p, hp, hkey⟩
    rw [decide_eq_true_eq] at hkey
    exact ⟨p, hp, pyKey_inj hkey⟩
  · rintro ⟨p, hp, h1, h2⟩
    exact ⟨p, hp, by rw [decide_eq_true_eq, h1, h2]⟩

/-! ### Unfolding lemmas for `runMain` -/

theorem runMain_missing_key (cfg : Config) (w : World)
    (hk : cfg.privateKey = "") :
    runMain cfg w = ⟨.fatalMissingKey, none, []⟩ := by
  unfold runMain
  rw [if_pos hk]

theorem runMain_ok_reads (cfg : Config) (w : World) (hk : cfg.privateKey ≠ "")
    (name : String) (hprof : w.profileResp = .ok name)
    (feed : List Activity) (hact : w.activityResp = .ok feed) :
    runMain cfg w =
      match get_latest_bet cfg feed with
      | none => ⟨.completed, some .NoQualifyingActivity, []⟩
      | some latest =>
        match (if cfg.showTargetPositionBets then w.historyResp
               else .ok []) with
        | .error _ => ⟨.httpError, none, []⟩
        | .ok _ =>
          match w.positionsResp with
          | .error _ => ⟨.httpError, none, []⟩
          | .ok ps =>
            match decide cfg (some latest) ps with
            | .PlaceOrder a s m =>
              ⟨.completed, some (.PlaceOrder a s m),
                if cfg.dryRun then [] else [⟨a, s, m⟩]⟩
            | d => ⟨.completed, some d, []⟩ := by
  unfold runMain
  rw [if_neg hk, hprof, hact]

example : get_latest_bet sampleCfg [sampleRedeem, sampleOther, sampleTrade] =
    some sampleTrade := by decide

example : runMain sampleCfg sampleWorld =
    ⟨.completed, some (.PlaceOrder "7157" "BUY" 1), []⟩ := by decide

/-! ### Shape of the decisions and orders a run can produce -/

theorem decide_place_order {cfg : Config} {latest : Option Activity}
    {holdings : List Position} {a s : String} {m : Rat}
    (h : decide cfg latest holdings = .PlaceOrder a s m) :
    ∃ t, latest = some t ∧ a = t.asset ∧ s = "BUY" ∧ m = cfg.betAmount := by
  cases latest with
  | none => simp [CopyBot.decide] at h
  | some t =>
    simp only [CopyBot.decide] at h
    by_cases hh : already_has_position holdings t.conditionId t.outcomeIndex = true
    · rw [if_pos hh] at h
      cases h
    · rw [if_neg hh] at h
      injection h with h₁ h₂ h₃
      exact ⟨t, rfl, h₁.symm, h₂.symm, h₃.symm⟩

theorem runMain_orders_shape (cfg : Config) (w : World) :
    ∀ o ∈ (runMain cfg w).orders, o.side = "BUY" ∧ o.amount = cfg.betAmount := by
  intro o ho
  unfold runMain at ho
  split at ho
  · simp at ho
  · split at ho
    · simp at ho
    · split at ho
      · simp at ho
      · split at ho
        · simp at ho
        · split at ho
          · simp at ho
          · split at ho
            · simp at ho
            · split at ho
              · rename_i heq
                split at ho
                · simp at ho
                · simp at ho
                  subst ho
                  obtain ⟨t, -, -, hs, hm⟩ := decide_place_order heq
                  exact ⟨hs, hm⟩
              · simp at ho

theorem pyStartswith_nil_left {l : List Char} (h : l ≠ []) :
    pyStartswith [] l = false := by
  cases l with
  | nil => exact absurd rfl h
  | cons c cs => rfl

theorem get_latest_bet_congr {c₁ c₂ : Config}
    (hf : c₁.filterBitcoinUpDown = c₂.filterBitcoinUpDown)
    (ht : c₁.titleStart = c₂.titleStart) :
    ∀ feed, get_latest_bet c₁ feed = get_latest_bet c₂ feed := by
  intro feed
  induction feed with
  | nil => rfl
  | cons a rest ih => rw [get_latest_bet, get_latest_bet, hf, ht, ih]

theorem decide_congr {c₁ c₂ : Config} (hb : c₁.betAmount = c₂.betAmount)
    (latest : Option Activity) (holdings : List Position) :
    decide c₁ latest holdings = decide c₂ latest holdings := by
  cases latest <;> simp [CopyBot.decide, hb]

/-! ## The claims -/

/-- C3: `get_latest_bet` is a first-match scan of the feed, in feed
order: a returned entry is a qualifying one (BUY trade passing the title
filter) preceded only by non-qualifying entries, the result is `none`
exactly when no entry of the fetched window qualifies, and in particular
a feed holding only SELL trades and non-trade entries yields `none`. -/
theorem C3_latest_bet_first_match (cfg : Config) (feed : List Activity) :
    (∀ t, get_latest_bet cfg feed = some t →
      qualifies cfg t = true ∧
        ∃ l₁ l₂, feed = l₁ ++ t :: l₂ ∧ ∀ x ∈ l₁, qualifies cfg x = false) ∧
    (get_latest_bet cfg feed = none ↔ ∀ x ∈ feed, qualifies cfg x = false) ∧
    ((∀ x ∈ feed, x.side ≠ "BUY" ∨ x.type ≠ "TRADE") →
      get_latest_bet cfg feed = none) := by
  have hnq : ∀ x : Activity, x.side ≠ "BUY" ∨ x.type ≠ "TRADE" →
      qualifies cfg x = false := by
    intro x hx
    unfold qualifies
    rcases hx with h | h
    · have : (x.side == "BUY") = false := beq_eq_false_iff_ne.mpr h
      simp [this]
    · have : (x.type == "TRADE") = false := beq_eq_false_iff_ne.mpr h
      simp [this]
  refine ⟨?_, ?_, ?_⟩
  · intro t h
    rw [get_latest_bet_eq_find] at h
    obtain ⟨hq, l₁, l₂, hsplit, hfirst⟩ := List.find?_eq_some.mp h
    refine ⟨hq, l₁, l₂, hsplit, fun x hx => ?_⟩
    have := hfirst x hx
    simpa using this
  · rw [get_latest_bet_eq_find, List.find?_eq_none]
    constructor
    · intro h x hx
      simpa using h x hx
    · intro h x hx
      simp [h x hx]
  · intro h
    rw [get_latest_bet_eq_find, List.find?_eq_none]
    intro x hx
    simp [hnq x (h x hx)]

/-- C3 witness: on a concrete feed the returned trade is the first
qualifying one, and a feed of only a non-trade entry and a SELL yields
`none`. -/
theorem C3_witness :
    (∃ l₁ l₂, [sampleRedeem, sampleOther, sampleTrade] = l₁ ++ sampleTrade :: l₂ ∧
      ∀ x ∈ l₁, qualifies sampleCfg x = false) ∧
    get_latest_bet sampleCfg [sampleRedeem, sampleSell] = none :=
  ⟨((C3_latest_bet_first_match sampleCfg
      [sampleRedeem, sampleOther, sampleTrade]).1 sampleTrade (by decide)).2,
   (C3_latest_bet_first_match sampleCfg [sampleRedeem, sampleSell]).2.2
     (by decide)⟩

/-- C4: `already_has_position` holds iff some snapshot position matches
the queried key by exact string equality on the market id and exact
integer equality on the outcome index; the underscore key string is
collision-free, so no distinct pair is ever reported as held. -/
theorem C4_holds_exact_match :
    (∀ (ps : List Position) (c : String) (o : Int),
      already_has_position ps c o = true ↔
        ∃ p ∈ ps, p.conditionId = c ∧ p.outcomeIndex = o) ∧
    (∀ (c₁ c₂ : String) (o₁ o₂ : Int),
      pyKey c₁ o₁ = pyKey c₂ o₂ → c₁ = c₂ ∧ o₁ = o₂) :=
  ⟨already_has_position_iff, fun _ _ _ _ h => pyKey_inj h⟩

/-- C4 witness: a concrete held key is reported, and key equality at a
concrete underscore-bearing market id forces component equality. -/
theorem C4_witness :
    already_has_position [samplePos] "0xc1" 0 = true ∧
    ("ab_c" = "ab_c" ∧ (-12 : Int) = -12) :=
  ⟨(C4_holds_exact_match.1 [samplePos] "0xc1" 0).mpr
      ⟨samplePos, by decide, rfl, rfl⟩,
   C4_holds_exact_match.2 "ab_c" "ab_c" (-12) (-12) rfl⟩

/-- C7: `get_target_bets_for_position` returns exactly the trade entries
of the fetched window whose (conditionId, outcomeIndex) matches, in feed
order (it is the feed's filter by that predicate), and the empty list —
not an error — when the key is absent from the feed. -/
theorem C7_history_filter (feed : List Activity) (cid : String) (oi : Int) :
    get_target_bets_for_position feed cid oi =
      feed.filter (fun a =>
        a.type == "TRADE" && a.conditionId == cid && a.outcomeIndex == oi) ∧
    ((∀ a ∈ feed, ¬(a.conditionId = cid ∧ a.outcomeIndex = oi)) →
      get_target_bets_for_position feed cid oi = []) := by
  refine ⟨get_target_bets_eq_filter feed cid oi, fun h => ?_⟩
  rw [get_target_bets_eq_filter]
  apply List.filter_eq_nil_iff.mpr
  intro a ha hp
  simp only [Bool.and_eq_true, beq_iff_eq] at hp
  exact h a ha ⟨hp.1.2, hp.2⟩

/-- C7 witness: querying a key absent from a concrete feed returns the
empty list. -/
theorem C7_witness :
    get_target_bets_for_position [sampleTrade, sampleOther] "absent" 7 = [] :=
  (C7_history_filter [sampleTrade, sampleOther] "absent" 7).2 (by decide)

/-- C10: with the title filter on and a non-empty required start, an
entry without a title gets the empty-string title and never qualifies,
and every trade `get_latest_bet` returns carries a title that starts
with the configured string. -/
theorem C10_title_filter (cfg : Config) (feed : List Activity) (t : Activity)
    (hon : cfg.filterBitcoinUpDown = true) (hne : cfg.titleStart ≠ "")
    (hsome : get_latest_bet cfg feed = some t) :
    (∃ s, t.title = some s ∧ pyStartswith s.data cfg.titleStart.data = true) ∧
    (∀ a : Activity, a.title = none → qualifies cfg a = false) := by
  have hdata : cfg.titleStart.data ≠ [] := by
    intro h
    exact hne (String.ext (h.trans rfl))
  have hnone : ∀ a : Activity, a.title = none → qualifies cfg a = false := by
    intro a ha
    unfold qualifies
    rw [ha]
    simp [hon, pyStartswith_nil_left hdata]
  refine ⟨?_, hnone⟩
  rw [get_latest_bet_eq_find] at hsome
  have hq := List.find?_some hsome
  cases hs : t.title with
  | none =>
    rw [hnone t hs] at hq
    cases hq
  | some s =>
    refine ⟨s, rfl, ?_⟩
    unfold qualifies at hq
    rw [hs, hon] at hq
    simpa using (Bool.and_eq_true .. |>.mp hq).2

/-- C10 witness: the concrete returned trade's title starts with the
configured string. -/
theorem C10_witness :
    ∃ s, sampleTrade.title = some s ∧
      pyStartswith s.data sampleCfg.titleStart.data = true :=
  (C10_title_filter sampleCfg [sampleRedeem, sampleOther, sampleTrade]
    sampleTrade rfl (by decide) (by decide)).1

/-! ### Soundness lemmas: what must have held for a run to decide or
order -/

theorem runMain_cases (cfg : Config) (w : World) :
    (runMain cfg w).status = .completed ∨
      runMain cfg w = ⟨.fatalMissingKey, none, []⟩ ∨
      runMain cfg w = ⟨.httpError, none, []⟩ := by
  unfold runMain
  split
  · exact Or.inr (Or.inl rfl)
  · split
    · exact Or.inr (Or.inr rfl)
    · split
      · exact Or.inr (Or.inr rfl)
      · split
        · exact Or.inl rfl
        · split
          · exact Or.inr (Or.inr rfl)
          · split
            · exact Or.inr (Or.inr rfl)
            · split
              · exact Or.inl rfl
              · exact Or.inl rfl

theorem runMain_decision_place_order_sound (cfg : Config) (w : World)
    (a s : String) (m : Rat)
    (h : (runMain cfg w).decision = some (.PlaceOrder a s m)) :
    ∃ feed t ps,
      w.activityResp = .ok feed ∧ get_latest_bet cfg feed = some t ∧
      w.positionsResp = .ok ps ∧
      already_has_position ps t.conditionId t.outcomeIndex = false ∧
      a = t.asset ∧ s = "BUY" ∧ m = cfg.betAmount := by
  unfold runMain at h
  split at h
  · simp at h
  · split at h
    · simp at h
    · split at h
      · simp at h
      · rename_i feed hact
        split at h
        · simp at h
        · rename_i latest hlb
          split at h
          · simp at h
          · split at h
            · simp at h
            · rename_i ps hpos
              split at h
              · rename_i a' s' m' heq
                simp only [Option.some.injEq, Decision.PlaceOrder.injEq] at h
                obtain ⟨ha, hs, hm⟩ := h
                have hfalse : already_has_position ps latest.conditionId
                    latest.outcomeIndex = false := by
                  by_contra hcon
                  rw [Bool.not_eq_false] at hcon
                  simp [CopyBot.decide, hcon] at heq
                simp only [CopyBot.decide, hfalse, Bool.false_eq_true,
                  if_false, Decision.PlaceOrder.injEq] at heq
                obtain ⟨ha', hs', hm'⟩ := heq
                exact ⟨feed, latest, ps, hact, hlb, hpos, hfalse,
                  ha ▸ ha'.symm, hs ▸ hs'.symm, hm ▸ hm'.symm⟩
              · rename_i d hnp
                simp only [Option.some.injEq] at h
                exact (hnp a s m h).elim

theorem runMain_order_sound (cfg : Config) (w : World)
    (h : (runMain cfg w).orders ≠ []) :
    cfg.privateKey ≠ "" ∧ cfg.dryRun = false ∧
    (∃ n, w.profileResp = .ok n) ∧
    (∃ feed t ps,
      w.activityResp = .ok feed ∧ get_latest_bet cfg feed = some t ∧
      w.positionsResp = .ok ps ∧
      already_has_position ps t.conditionId t.outcomeIndex = false ∧
      (runMain cfg w).orders = [⟨t.asset, "BUY", cfg.betAmount⟩]) ∧
    (cfg.showTargetPositionBets = true → ∃ l, w.historyResp = .ok l) := by
  unfold runMain at h
  split at h
  · simp at h
  · rename_i hk
    split at h
    · simp at h
    · rename_i n hprof
      split at h
      · simp at h
      · rename_i feed hact
        split at h
        · simp at h
        · rename_i latest hlb
          split at h
          · simp at h
          · rename_i hl hhist
            split at h
            · simp at h
            · rename_i ps hpos
              split at h
              · rename_i a' s' m' heq
                split at h
                · simp at h
                · rename_i hdry
                  have hfalse : already_has_position ps latest.conditionId
                      latest.outcomeIndex = false := by
                    by_contra hcon
                    rw [Bool.not_eq_false] at hcon
                    simp [CopyBot.decide, hcon] at heq
                  simp only [CopyBot.decide, hfalse, Bool.false_eq_true,
                    if_false, Decision.PlaceOrder.injEq] at heq
                  obtain ⟨ha', hs', hm'⟩ := heq
                  have hdry' : cfg.dryRun = false := by
                    cases hd : cfg.dryRun
                    · rfl
                    · exact absurd (by simp [hd]) hdry
                  refine ⟨hk, hdry', ⟨n, hprof⟩,
                    ⟨feed, latest, ps, hact, hlb, hpos, hfalse, ?_⟩, ?_⟩
                  · rw [show (runMain cfg w).orders =
                        [⟨a', s', m'⟩] from ?_]
                    · rw [ha', hs', hm']
                    · unfold runMain
                      rw [if_neg hk, hprof, hact]
                      simp only [hlb, hhist, hpos]
                      rw [show decide cfg (some latest) ps =
                          .PlaceOrder a' s' m' from ?_]
                      · simp [hdry']
                      · simp [CopyBot.decide, hfalse, ha', hs', hm']
                  · intro hshow
                    rw [if_pos hshow] at hhist
                    exact ⟨hl, hhist⟩
              · simp at h

/-- C5: `decide` is idempotent across a fill: when it yields PlaceOrder
for the latest trade's key and the holdings are then extended by a
position carrying that key, deciding again on the same latest trade
yields AlreadyHeld of that key and can no longer yield PlaceOrder. -/
theorem C5_decide_idempotent (cfg : Config) (t : Activity)
    (holdings : List Position) (a s : String) (m : Rat) (p : Position)
    (_hpo : decide cfg (some t) holdings = .PlaceOrder a s m)
    (hc : p.conditionId = t.conditionId)
    (ho : p.outcomeIndex = t.outcomeIndex) :
    decide cfg (some t) (holdings ++ [p]) =
      .AlreadyHeld t.conditionId t.outcomeIndex ∧
    ∀ a₂ s₂ m₂,
      decide cfg (some t) (holdings ++ [p]) ≠ .PlaceOrder a₂ s₂ m₂ := by
  have hheld : already_has_position (holdings ++ [p]) t.conditionId
      t.outcomeIndex = true :=
    (already_has_position_iff (holdings ++ [p]) _ _).mpr
      ⟨p, by simp, hc, ho⟩
  have h₁ : decide cfg (some t) (holdings ++ [p]) =
      .AlreadyHeld t.conditionId t.outcomeIndex := by
    simp [CopyBot.decide, hheld]
  exact ⟨h₁, fun a₂ s₂ m₂ hne => by rw [h₁] at hne; cases hne⟩

/-- C5 witness: concretely, a PlaceOrder on empty holdings turns into
AlreadyHeld once the matching position is added. -/
theorem C5_witness :
    decide sampleCfg (some sampleTrade) ([] ++ [samplePos]) =
      .AlreadyHeld sampleTrade.conditionId sampleTrade.outcomeIndex :=
  (C5_decide_idempotent sampleCfg sampleTrade [] "7157" "BUY" 1 samplePos
    (by decide) rfl rfl).1

/-- C6: every PlaceOrder decision is
`PlaceOrder(latest.asset, BUY, betAmount)` — the latest trade's asset
identifier, side BUY, and the fixed configured notional (independent of
the target trade's size); accordingly every posted order has side BUY
and the configured amount. -/
theorem C6_place_order_shape (cfg : Config) (w : World)
    (latest : Option Activity) (holdings : List Position) (a s : String)
    (m : Rat) :
    (decide cfg latest holdings = .PlaceOrder a s m →
      ∃ t, latest = some t ∧ a = t.asset ∧ s = "BUY" ∧
        m = cfg.betAmount) ∧
    (∀ o ∈ (runMain cfg w).orders,
      o.side = "BUY" ∧ o.amount = cfg.betAmount) :=
  ⟨decide_place_order, runMain_orders_shape cfg w⟩

/-- C6 witness: the concrete PlaceOrder decision carries the sample
trade's asset id, side BUY and the configured one-dollar notional. -/
theorem C6_witness :
    ∃ t, (some sampleTrade : Option Activity) = some t ∧
      "7157" = t.asset ∧ "BUY" = "BUY" ∧ (1 : Rat) = sampleCfg.betAmount :=
  (C6_place_order_shape sampleCfg sampleWorld (some sampleTrade) []
    "7157" "BUY" 1).1 (by decide)

/-- C1: a run whose holdings snapshot contains a position with the same
(conditionId, outcomeIndex) key as the run's latest qualifying trade
never produces a PlaceOrder decision and never submits an order. -/
theorem C1_no_place_order_when_held (cfg : Config) (w : World)
    (feed : List Activity) (t : Activity) (ps : List Position) (p : Position)
    (hact : w.activityResp = .ok feed)
    (hlatest : get_latest_bet cfg feed = some t)
    (hpos : w.positionsResp = .ok ps)
    (hmem : p ∈ ps)
    (hc : p.conditionId = t.conditionId)
    (ho : p.outcomeIndex = t.outcomeIndex) :
    (∀ a s m, (runMain cfg w).decision ≠ some (.PlaceOrder a s m)) ∧
      (runMain cfg w).orders = [] := by
  have hheld : already_has_position ps t.conditionId t.outcomeIndex = true :=
    (already_has_position_iff ps _ _).mpr ⟨p, hmem, hc, ho⟩
  constructor
  · intro a s m hdec
    obtain ⟨feed', t', ps', hact', hlatest', hpos', hfalse, -⟩ :=
      runMain_decision_place_order_sound cfg w a s m hdec
    obtain rfl : feed' = feed := by
      rw [hact] at hact'
      exact (Except.ok.inj hact').symm
    obtain rfl : t' = t := by
      rw [hlatest] at hlatest'
      exact (Option.some.inj hlatest').symm
    obtain rfl : ps' = ps := by
      rw [hpos] at hpos'
      exact (Except.ok.inj hpos').symm
    rw [hheld] at hfalse
    cases hfalse
  · by_contra hne
    obtain ⟨-, -, -, ⟨feed', t', ps', hact', hlatest', hpos', hfalse, -⟩, -⟩ :=
      runMain_order_sound cfg w hne
    obtain rfl : feed' = feed := by
      rw [hact] at hact'
      exact (Except.ok.inj hact').symm
    obtain rfl : t' = t := by
      rw [hlatest] at hlatest'
      exact (Option.some.inj hlatest').symm
    obtain rfl : ps' = ps := by
      rw [hpos] at hpos'
      exact (Except.ok.inj hpos').symm
    rw [hheld] at hfalse
    cases hfalse

/-- C1 witness: with the sample holdings containing the sample trade's
key, the concrete run decides AlreadyHeld — no PlaceOrder, no order. -/
theorem C1_witness :
    (∀ a s m, (runMain sampleCfg sampleWorldHeld).decision ≠
      some (.PlaceOrder a s m)) ∧
    (runMain sampleCfg sampleWorldHeld).orders = [] :=
  C1_no_place_order_when_held sampleCfg sampleWorldHeld
    [sampleRedeem, sampleOther, sampleTrade] sampleTrade [samplePos]
    samplePos rfl (by decide) rfl (by decide) rfl rfl

/-- C8: fetch failure is atomic: whenever any of the four upstream reads
(profile, latest activity, position history while enabled, holdings)
returns a non-success status, the run places no order; and a run that
aborted with an HTTP error produced no decision and no order. -/
theorem C8_fetch_failure_atomic (cfg : Config) (w : World) :
    ((w.profileResp = .error () ∨ w.activityResp = .error () ∨
        w.positionsResp = .error () ∨
        (cfg.showTargetPositionBets = true ∧ w.historyResp = .error ())) →
      (runMain cfg w).orders = []) ∧
    ((runMain cfg w).status = .httpError →
      (runMain cfg w).decision = none ∧ (runMain cfg w).orders = []) := by
  constructor
  · intro h
    by_contra hne
    obtain ⟨-, -, ⟨n, hprof⟩, ⟨feed, t, ps, hact, -, hpos, -, -⟩, hhist⟩ :=
      runMain_order_sound cfg w hne
    rcases h with h | h | h | ⟨hs, he⟩
    · rw [h] at hprof
      cases hprof
    · rw [h] at hact
      cases hact
    · rw [h] at hpos
      cases hpos
    · obtain ⟨l, hok⟩ := hhist hs
      rw [he] at hok
      cases hok
  · intro h
    rcases runMain_cases cfg w with hc | hc | hc
    · rw [h] at hc
      cases hc
    · rw [hc] at h
      cases h
    · rw [hc]
      exact ⟨rfl, rfl⟩

/-- C8 witness: with a failing holdings read the concrete run places no
order, and having aborted with an HTTP error it reached no decision. -/
theorem C8_witness :
    (runMain sampleCfg sampleWorldFetchFail).orders = [] ∧
    ((runMain sampleCfg sampleWorldFetchFail).decision = none ∧
      (runMain sampleCfg sampleWorldFetchFail).orders = []) :=
  ⟨(C8_fetch_failure_atomic sampleCfg sampleWorldFetchFail).1
      (Or.inr (Or.inr (Or.inl rfl))),
   (C8_fetch_failure_atomic sampleCfg sampleWorldFetchFail).2 (by decide)⟩

/-- C9: noninterference of the audit history: two runs agreeing on the
signing key, the filter settings, the bet amount, and the profile,
activity and holdings reads reach the same decision whatever their
successful history reads return — including when one run has the
history display disabled and so never reads the history at all. -/
theorem C9_history_noninterference (cfg₁ cfg₂ : Config) (w₁ w₂ : World)
    (hkey : cfg₁.privateKey = cfg₂.privateKey)
    (hfb : cfg₁.filterBitcoinUpDown = cfg₂.filterBitcoinUpDown)
    (hts : cfg₁.titleStart = cfg₂.titleStart)
    (hba : cfg₁.betAmount = cfg₂.betAmount)
    (hprof : w₁.profileResp = w₂.profileResp)
    (hact : w₁.activityResp = w₂.activityResp)
    (hpos : w₁.positionsResp = w₂.positionsResp)
    (hhist₁ : cfg₁.showTargetPositionBets = true →
      ∃ l, w₁.historyResp = .ok l)
    (hhist₂ : cfg₂.showTargetPositionBets = true →
      ∃ l, w₂.historyResp = .ok l) :
    (runMain cfg₁ w₁).decision = (runMain cfg₂ w₂).decision := by
  have hif₁ : ∃ l, (if cfg₁.showTargetPositionBets then w₁.historyResp
      else Except.ok []) = Except.ok l := by
    by_cases hs : cfg₁.showTargetPositionBets = true
    · obtain ⟨l, hl⟩ := hhist₁ hs
      exact ⟨l, by rw [if_pos hs, hl]⟩
    · exact ⟨[], by rw [if_neg hs]⟩
  have hif₂ : ∃ l, (if cfg₂.showTargetPositionBets then w₂.historyResp
      else Except.ok []) = Except.ok l := by
    by_cases hs : cfg₂.showTargetPositionBets = true
    · obtain ⟨l, hl⟩ := hhist₂ hs
      exact ⟨l, by rw [if_pos hs, hl]⟩
    · exact ⟨[], by rw [if_neg hs]⟩
  obtain ⟨hl₁, hifeq₁⟩ := hif₁
  obtain ⟨hl₂, hifeq₂⟩ := hif₂
  by_cases hk : cfg₁.privateKey = ""
  · rw [runMain_missing_key cfg₁ w₁ hk,
      runMain_missing_key cfg₂ w₂ (by rw [← hkey]; exact hk)]
  · have hk₂ : cfg₂.privateKey ≠ "" := by
      rw [← hkey]
      exact hk
    cases hp : w₁.profileResp with
    | error e =>
      have hp₂ : w₂.profileResp = .error e := by
        rw [← hprof]
        exact hp
      unfold runMain
      rw [if_neg hk, if_neg hk₂, hp, hp₂]
    | ok name =>
      have hp₂ : w₂.profileResp = .ok name := by
        rw [← hprof]
        exact hp
      cases ha : w₁.activityResp with
      | error e =>
        have ha₂ : w₂.activityResp = .error e := by
          rw [← hact]
          exact ha
        unfold runMain
        rw [if_neg hk, if_neg hk₂, hp, hp₂, ha, ha₂]
      | ok feed =>
        have ha₂ : w₂.activityResp = .ok feed := by
          rw [← hact]
          exact ha
        rw [runMain_ok_reads cfg₁ w₁ hk name hp feed ha,
          runMain_ok_reads cfg₂ w₂ hk₂ name hp₂ feed ha₂,
          get_latest_bet_congr hfb hts feed]
        cases hlb : get_latest_bet cfg₂ feed with
        | none => rfl
        | some latest =>
          simp only [hifeq₁, hifeq₂]
          rw [hpos]
          cases hpp : w₂.positionsResp with
          | error e => rfl
          | ok ps =>
            have hdc : decide cfg₁ (some latest) ps =
                decide cfg₂ (some latest) ps :=
              decide_congr hba (some latest) ps
            simp only [hdc]
            cases hd : decide cfg₂ (some latest) ps <;> rfl

/-- C9 witness: the concrete run with the history display disabled and a
failing (never-read) history response decides exactly as the run with
the display enabled and a successful history read. -/
theorem C9_witness :
    (runMain sampleCfg sampleWorld).decision =
      (runMain { sampleCfg with showTargetPositionBets := false }
        { sampleWorld with historyResp := .error () }).decision :=
  C9_history_noninterference sampleCfg
    { sampleCfg with showTargetPositionBets := false }
    sampleWorld { sampleWorld with historyResp := .error () }
    rfl rfl rfl rfl rfl rfl rfl
    (fun _ => ⟨[sampleTrade], rfl⟩)
    (fun h => absurd h (by decide))

/-- C2 counterexample: the claim says a dry-run invocation does not
require a signing key and proceeds to its decision; in the code the
missing-key check precedes the dry-run branch, so a concrete dry-run
with an empty key and all reads available aborts with no decision. -/
theorem C2_counterexample :
    dryRunNoKeyCfg.dryRun = true ∧ dryRunNoKeyCfg.privateKey = "" ∧
    runMain dryRunNoKeyCfg sampleWorld =
      ⟨.fatalMissingKey, none, []⟩ := by decide

/-- C2 amended: an empty signing key is fatal for every run, dry-run
included: the run aborts before any network read (the outcome is
independent of the world), producing no decision and no order. -/
theorem C2_missing_key_always_fatal (cfg : Config) (w : World)
    (hk : cfg.privateKey = "") :
    runMain cfg w = ⟨.fatalMissingKey, none, []⟩ :=
  runMain_missing_key cfg w hk

/-- C2 witness: the concrete dry-run configuration with an empty key
aborts on the missing-key check. -/
theorem C2_witness :
    runMain dryRunNoKeyCfg sampleWorld = ⟨.fatalMissingKey, none, []⟩ :=
  C2_missing_key_always_fatal dryRunNoKeyCfg sampleWorld rfl

end CopyBot
